import Mathlib

/-!
Shallow embedding of the response-parsing and nutrition-log aggregation
pipeline of `src/app.py` (meal-photo nutrition estimator).

Embedded functions (names follow the source where Lean allows):
* `parse_nutrition_value`  — app.py lines 287-301
* `parse_nutrition_from_response` — app.py lines 213-242
* `classify_meal_type` — app.py lines 269-285
* the record filter loop — app.py lines 694-719
* period aggregation (totals, day count) — app.py lines 727-754
* the daily series — app.py lines 759-781

Python floats are modelled as `ℚ` (all values in the claims are exactly
representable); `str` is `String` / `List Char`.  Python `float(s)` and
`int(s)` are modelled on their decimal subset (optional ASCII sign, ASCII
digit runs, one optional decimal point) — no exponent / `inf` / `nan` /
underscore forms, none of which occur in the pipeline's inputs.  Python
`\s` / `str.strip` are modelled on ASCII whitespace.
-/

/-- Model of CPython string `split(sep)` for a one-character separator:
`splitOnChar sep cs` never returns `[]`; splitting the empty string gives
`[[]]`, matching `"".split(sep) == ['']`. -/
def splitOnChar (sep : Char) : List Char → List (List Char)
  | [] => [[]]
  | c :: rest =>
    let r := splitOnChar sep rest
    if c = sep then [] :: r
    else
      match r with
      | [] => [[c]]
      | h :: t => (c :: h) :: t

/-- Does the pattern `pat` occur as a contiguous run inside `cs`? -/
def containsSeq (cs pat : List Char) : Bool :=
  match cs with
  | [] => pat.isPrefixOf ([] : List Char)
  | _ :: rest => pat.isPrefixOf cs || containsSeq rest pat

/-- Numeric value of a run of ASCII digits (most significant first). -/
def natVal (cs : List Char) : Nat :=
  cs.foldl (fun a c => 10 * a + (c.toNat - '0'.toNat)) 0

/-- Unsigned part of CPython `float(s)`: digits with at most one decimal
point, at least one digit in total (`"5."`, `".5"`, `"5.5"` all parse;
`""`, `"."`, `"5.5.5"` do not). -/
def parseUnsignedFloat (cs : List Char) : Option ℚ :=
  match splitOnChar '.' cs with
  | [w] =>
    if w ≠ [] ∧ w.all Char.isDigit then some (natVal w : ℚ) else none
  | [w, f] =>
    if (w ≠ [] ∨ f ≠ []) ∧ w.all Char.isDigit ∧ f.all Char.isDigit then
      some ((natVal w : ℚ) + (natVal f : ℚ) / (10 : ℚ) ^ f.length)
    else none
  | _ => none

/-- Model of CPython `float(s)` on its plain decimal subset: an optional
ASCII sign followed by the unsigned form. -/
def parseFloatPy (cs : List Char) : Option ℚ :=
  match cs with
  | [] => parseUnsignedFloat []
  | c :: rest =>
    if c = '-' then (parseUnsignedFloat rest).map (fun q => -q)
    else if c = '+' then parseUnsignedFloat rest
    else parseUnsignedFloat (c :: rest)

/-- The canonical range glyph of the pipeline: WAVE DASH. -/
def waveDash : Char := '〜'

/-- FULLWIDTH TILDE, one of the two glyphs the extractor canonicalizes. -/
def fullTilde : Char := '～'


/-- The separator list of `parse_nutrition_value` (app.py line 294):
`['〜', '～', '~', '-']`, tried in this order. -/
def rangeSeps : List Char := [waveDash, fullTilde, '~', '-']

/-- Model of value_str.replace(",", "").replace(" ", "") (app.py line 292):
every comma and every ASCII space is removed. -/
def stripCommaSpace (cs : List Char) : List Char :=
  cs.filter (fun c => c ≠ ',' ∧ c ≠ ' ')

/-- First separator of `rangeSeps` occurring anywhere in `cs` — the Python
loop `for sep in ['〜', '～', '~', '-']: if sep in value_str: …`. -/
def findSep (cs : List Char) : Option Char :=
  rangeSeps.find? (fun sep => cs.contains sep)

/-- Model of [float(p) for p in parts if p]: drops empty parts, fails (raises)
as soon as one non-empty part does not parse as a float. -/
def parseSides : List (List Char) → Option (List ℚ)
  | [] => some []
  | p :: ps =>
    if p = [] then parseSides ps
    else
      match parseFloatPy p, parseSides ps with
      | some q, some qs => some (q :: qs)
      | _, _ => none

/-- The range branch of `parse_nutrition_value` (app.py lines 296-298):
split on every occurrence of `sep`, parse the non-empty sides, return
their arithmetic mean.  `none` models a raised exception (a side that
does not parse, or `ZeroDivisionError` when every side is empty). -/
def rangeMean (cs : List Char) (sep : Char) : Option ℚ :=
  match parseSides (splitOnChar sep cs) with
  | none => none
  | some nums =>
    if nums = [] then none
    else some (nums.sum / (nums.length : ℚ))

/-- A raw nutrient cell: Python `int`/`float` on one side, `str` on the
other (`isinstance(value, (int, float))`, app.py line 290). -/
inductive RawValue where
  | num (q : ℚ)
  | str (s : String)
deriving DecidableEq, Repr

/-- The `try:` body of `parse_nutrition_value`; `none` models any raised
exception. -/
def parseNutritionCore : RawValue → Option ℚ
  | .num q => some q
  | .str s =>
    let cs := stripCommaSpace s.data
    match findSep cs with
    | some sep => rangeMean cs sep
    | none => parseFloatPy cs

/-- Model of parse_nutrition_value (app.py lines 287-301): numeric input is
returned as a float; a string is stripped of commas and spaces, averaged
over its range sides when a range separator occurs, plainly parsed
otherwise; every failure yields `0.0`. -/
def parse_nutrition_value (v : RawValue) : ℚ :=
  (parseNutritionCore v).getD 0

/-- The hour extraction of classify_meal_type, int(time_str.split(":")[0])
(app.py lines 273-274).  CPython `int(s)` strips ASCII whitespace and
accepts an optional sign before a digit run. -/
def isAsciiWs (c : Char) : Bool :=
  c = ' ' ∨ c = '\t' ∨ c = '\n' ∨ c = '\r' ∨ c = '\x0b' ∨ c = '\x0c'

/-- Python `str.strip()` on the modelled ASCII-whitespace subset. -/
def stripWs (cs : List Char) : List Char :=
  ((cs.dropWhile isAsciiWs).reverse.dropWhile isAsciiWs).reverse

/-- Model of CPython `int(s)` on its plain decimal subset. -/
def parseIntPy (cs : List Char) : Option Int :=
  match stripWs cs with
  | '-' :: ds =>
    if ds ≠ [] ∧ ds.all Char.isDigit then some (-(natVal ds : Int)) else none
  | '+' :: ds =>
    if ds ≠ [] ∧ ds.all Char.isDigit then some (natVal ds : Int) else none
  | ds =>
    if ds ≠ [] ∧ ds.all Char.isDigit then some (natVal ds : Int) else none

/-- The hour component `classify_meal_type` works from:
`int(time_str.split(':')[0])`.  `splitOnChar` never returns `[]`, so
`headD` reads the genuine first component. -/
def hourOf (time_str : String) : Option Int :=
  parseIntPy ((splitOnChar ':' time_str.data).headD [])

/-- Model of classify_meal_type (app.py lines 269-285): bucket the hour into the
four meal slots; any exception (unparsable hour) yields the unknown
slot. -/
def classify_meal_type (time_str : String) : String :=
  match hourOf time_str with
  | none => "❓ 不明"
  | some hour =>
    if 5 ≤ hour ∧ hour < 10 then "🌅 朝食"
    else if 10 ≤ hour ∧ hour < 15 then "☀️ 昼食"
    else if 15 ≤ hour ∧ hour < 22 then "🌙 夕食"
    else "🌃 夜食"


/-!
Part: NutrientExtractor — `parse_nutrition_from_response` (app.py 213-242)

Each nutrient pattern is `LABEL.*?([\d,\.～~\-]+)` searched with
`re.search` (leftmost match wins; `.*?` cannot cross a newline; the
capture class is greedy).  `re.IGNORECASE` has no effect on these
patterns: the labels contain no cased letters and `\d` is modelled on
ASCII digits.  Note the capture class contains FULLWIDTH TILDE (U+FF5E),
the ASCII tilde and the hyphen, but NOT the WAVE DASH (U+301C) that the
pipeline itself uses as the canonical range glyph.
-/

/-- The capture class `[\d,\.～~\-]` of the nutrient patterns
(app.py lines 227-231). -/
def isCaptureChar (c : Char) : Bool :=
  c.isDigit ∨ c = ',' ∨ c = '.' ∨ c = fullTilde ∨ c = '~' ∨ c = '-'

/-- `.*?([\d,\.～~\-]+)` after the label: skip (lazily) to the first
capture-class character on the same line and take the maximal run; fail
if a newline or the end of the text comes first. -/
def findCapture : List Char → Option (List Char)
  | [] => none
  | c :: rest =>
    if c = '\n' then none
    else if isCaptureChar c then some (c :: rest.takeWhile isCaptureChar)
    else findCapture rest

/-- Model of the search for one nutrient pattern, label then lazy gap
then capture run: try each start position left to
right; at a position where one of the alternative labels matches, the
match succeeds iff a capture run follows on that line, otherwise the
search resumes at the next position. -/
def matchNutrient (labels : List (List Char)) : List Char → Option (List Char)
  | [] => none
  | text@(_ :: rest) =>
    match labels.find? (fun l => l.isPrefixOf text) with
    | some l =>
      match findCapture (text.drop l.length) with
      | some run => some run
      | none => matchNutrient labels rest
    | none => matchNutrient labels rest

/-- Model of the post-processing of a captured group (app.py line 237),
group(1).replace(",", "") then both tildes replaced by the wave dash: drop commas, canonicalize both tildes to the wave
dash. -/
def canonicalizeRun (cs : List Char) : List Char :=
  (cs.filter (fun c => c ≠ ',')).map (fun c => if c = fullTilde ∨ c = '~' then waveDash else c)

/-- One nutrient field of the extractor: the canonicalized first capture,
or the unknown sentinel. -/
def extractField (labels : List (List Char)) (text : List Char) : String :=
  match matchNutrient labels text with
  | some run => String.mk (canonicalizeRun run)
  | none => "不明"

/-- The final group of the dish-name pattern: at least one non-newline character,
captured greedily to the end of the line. -/
def captureRestOfLine (cs : List Char) : Option (List Char) :=
  match cs with
  | [] => none
  | c :: _ => if c = '\n' then none else some (cs.takeWhile (fun c => c ≠ '\n'))

/-- Whitespace run then capture, with backtracking: the greedy whitespace run is consumed
first; on failure it is given back one character at a time. -/
def wsThenCapture : List Char → Option (List Char)
  | [] => none
  | c :: rest =>
    if isAsciiWs c then
      match wsThenCapture rest with
      | some r => some r
      | none => captureRestOfLine (c :: rest)
    else captureRestOfLine (c :: rest)

/-- Model of the dish-name search (app.py line 218): leftmost occurrence
of the label 料理名 followed by a fullwidth or ASCII colon, then the
whitespace-and-capture tail. -/
def matchMealName : List Char → Option (List Char)
  | [] => none
  | text@(_ :: rest) =>
    if ("料理名".data ++ [Char.ofNat 0xFF1A]).isPrefixOf text then
      match wsThenCapture (text.drop 4) with
      | some r => some r
      | none => matchMealName rest
    else if ("料理名".data ++ [':']).isPrefixOf text then
      match wsThenCapture (text.drop 4) with
      | some r => some r
      | none => matchMealName rest
    else matchMealName rest

/-- The structured result of one extraction: dish name + the five
nutrient fields, each a raw string or the `"不明"` sentinel. -/
structure Extracted where
  meal_name : String
  energy : String
  protein : String
  salt : String
  potassium : String
  phosphorus : String
deriving DecidableEq, Repr

/-- The label synonym lists of the five nutrient patterns
(app.py lines 226-232); the protein pattern is the alternation
`(?:タンパク質|たんぱく質)`. -/
def energyLabels : List (List Char) := ["エネルギー".data]

def proteinLabels : List (List Char) := ["タンパク質".data, "たんぱく質".data]

def saltLabels : List (List Char) := ["塩分".data]

def potassiumLabels : List (List Char) := ["カリウム".data]

def phosphorusLabels : List (List Char) := ["リン".data]

/-- Model of parse_nutrition_from_response (app.py lines 213-242). -/
def parse_nutrition_from_response (response_text : String) : Extracted :=
  let t := response_text.data
  { meal_name :=
      match matchMealName t with
      | some r => String.mk (stripWs r)
      | none => "不明"
    energy := extractField energyLabels t
    protein := extractField proteinLabels t
    salt := extractField saltLabels t
    potassium := extractField potassiumLabels t
    phosphorus := extractField phosphorusLabels t }


/-!
Part: RecordFilter — the `filtered_records` loop (app.py 694-719)

A raw spreadsheet row is a string-keyed mapping whose keys may be
absent; the row is modelled as a structure of `Option String` fields
(`none` = key absent).  record.get(k, d) is `Option.getD`;
`record.get(k)` is the `Option` itself.  Missing nutrient cells default
to the Python integer `0` (e.g. the エネルギー(kcal) cell defaulting to the integer 0), hence
`getNutrient`.  The loop MUTATES each record that reaches the
classification step (assignment into the 食事区分 key), so the embedding returns
both the updated input sequence and the filtered output. -/

structure RawRecord where
  date : Option String        -- 日付
  time : Option String        -- 時刻
  name : Option String        -- 名前
  energy : Option String      -- エネルギー(kcal)
  protein : Option String     -- たんぱく質(g)
  salt : Option String        -- 塩分(g)
  potassium : Option String   -- カリウム(mg)
  phosphorus : Option String  -- リン(mg)
  mealType : Option String    -- 食事区分 (written by the filter loop)
deriving DecidableEq, Repr

/-- Reading a nutrient column, record.get(column, 0): an absent key yields
the numeric default `0`, a present key yields its string. -/
def getNutrient : Option String → RawValue
  | some s => .str s
  | none => .num 0

/-- A calendar date as produced by datetime.strptime with the
year-month-day format, followed by .date(). -/
structure PyDate where
  year : Nat
  month : Nat
  day : Nat
deriving DecidableEq, Repr

/-- Comparison of datetime.date values: lexicographic on (year, month, day). -/
def dateLE (a b : PyDate) : Bool :=
  decide (a.year < b.year ∨ (a.year = b.year ∧
    (a.month < b.month ∨ (a.month = b.month ∧ a.day ≤ b.day))))

/-- Gregorian leap-year rule used by `datetime`. -/
def isLeap (y : Nat) : Bool := y % 4 = 0 ∧ (y % 100 ≠ 0 ∨ y % 400 = 0)

def daysInMonth (y m : Nat) : Nat :=
  if m = 2 then (if isLeap y then 29 else 28)
  else if m = 4 ∨ m = 6 ∨ m = 9 ∨ m = 11 then 30
  else 31

/-- Model of datetime.strptime with the year-month-day format followed
by .date():
`%Y` is exactly four digits, `%m`/`%d` are one or two digits in range
(CPython's `_strptime` regexes), the constructed date must be a valid
`datetime` (year ≥ 1, day within the month).  `none` models the raised
`ValueError`. -/
def parseDatePy (s : String) : Option PyDate :=
  match splitOnChar '-' s.data with
  | [ys, ms, ds] =>
    let y := natVal ys; let m := natVal ms; let d := natVal ds
    if ys.length = 4 ∧ ys.all Char.isDigit ∧
       (ms.length = 1 ∨ ms.length = 2) ∧ ms.all Char.isDigit ∧ 1 ≤ m ∧ m ≤ 12 ∧
       (ds.length = 1 ∨ ds.length = 2) ∧ ds.all Char.isDigit ∧ 1 ≤ d ∧
       1 ≤ y ∧ d ≤ daysInMonth y m
    then some ⟨y, m, d⟩ else none
  | _ => none

/-- The pass condition of the filter loop (app.py 697-710): the date
guard runs only on a NON-empty date string (the guard of app.py line 700), any
parse failure excludes the record, and the user guard compares display
names exactly. -/
def passesFilter (selected_user : String) (start_date end_date : PyDate)
    (r : RawRecord) : Bool :=
  (let s := r.date.getD ""
   if s = "" then true
   else
     match parseDatePy s with
     | none => false
     | some d => dateLE start_date d ∧ dateLE d end_date) ∧
  (selected_user = "全員" ∨ r.name = some selected_user)

/-- The statement writing the meal-slot column (app.py 713-714),
assigning classify_meal_type of the 時刻 cell into the 食事区分 key: the in-place mutation of a passing record. -/
def classifyRecord (r : RawRecord) : RawRecord :=
  { r with mealType := some (classify_meal_type (r.time.getD "")) }

/-- A record with its meal-slot column erased: used to state which
fields the filter loop leaves untouched. -/
def eraseMealType (r : RawRecord) : RawRecord := { r with mealType := none }

/-- The filter loop.  First component: the input sequence afterwards
(records that passed have been mutated in place); second component: the
`filtered_records` list (aliasing the mutated records), in input
order (the subsequent sort is `sortRecords`). -/
def filterLoop (su : String) (sd ed : PyDate) :
    List RawRecord → List RawRecord × List RawRecord
  | [] => ([], [])
  | r :: rest =>
    let p := filterLoop su sd ed rest
    if passesFilter su sd ed r then
      let r' := classifyRecord r
      (r' :: p.1, r' :: p.2)
    else (r :: p.1, p.2)

/-- The sort of the filtered list (app.py 719), by the pair of the
日付 and 時刻 cells (each defaulting to the empty string): a stable ascending sort by the (date, time) string pair;
`insertionSort` with this total relation is such a sort. -/
def recordKeyLE (a b : RawRecord) : Prop :=
  (a.date.getD "", a.time.getD "") ≤ (b.date.getD "", b.time.getD "")

instance : DecidableRel recordKeyLE := fun a b => by
  unfold recordKeyLE; infer_instance

def sortRecords (l : List RawRecord) : List RawRecord :=
  l.insertionSort recordKeyLE

/-- The whole filter stage: updated input sequence plus the sorted
filtered list. -/
def filtered_records (su : String) (sd ed : PyDate) (all_records : List RawRecord) :
    List RawRecord × List RawRecord :=
  let p := filterLoop su sd ed all_records
  (p.1, sortRecords p.2)


/-!
Part: PeriodAggregator — summary (app.py 727-754) and daily series (759-781)

sum(parse_nutrition_value(r.get(col, 0)) for r in filtered_records) is
a left fold starting at `0`; unique_dates is
the set built from r.get("日付") over the filtered records (this get
has NO default, and Python truthiness drops both an absent key and an
empty string); day_count = len(unique_dates) if unique_dates
else 1.  The daily series accumulates per-date buckets in a dict keyed
by `record.get("日付", "")` (insertion order) and then emits
`sorted(daily_data.items())` — since the keys are pairwise distinct the
sort is by the date string.
-/

def totalNutr (f : RawRecord → Option String) (l : List RawRecord) : ℚ :=
  (l.map (fun r => parse_nutrition_value (getNutrient (f r)))).foldl (· + ·) 0

def total_energy : List RawRecord → ℚ := totalNutr (fun r => r.energy)

def total_protein : List RawRecord → ℚ := totalNutr (fun r => r.protein)

def total_salt : List RawRecord → ℚ := totalNutr (fun r => r.salt)

def total_potassium : List RawRecord → ℚ := totalNutr (fun r => r.potassium)

def total_phosphorus : List RawRecord → ℚ := totalNutr (fun r => r.phosphorus)

def meal_count (l : List RawRecord) : Nat := l.length

/-- The distinct non-empty date strings of the record set, one entry
each (the model of the Python `set`; only its size is consumed). -/
def unique_dates (l : List RawRecord) : List String :=
  ((l.filterMap (fun r => r.date)).filter (fun s => s ≠ "")).dedup

def day_count (l : List RawRecord) : Nat :=
  if unique_dates l = [] then 1 else (unique_dates l).length

/-- Per-day average of app.py line 752, total divided by day count
(`day_count` is always positive, so the guarded branch is the one
taken). -/
def per_day_energy (l : List RawRecord) : ℚ := total_energy l / (day_count l : ℚ)

def per_day_protein (l : List RawRecord) : ℚ := total_protein l / (day_count l : ℚ)

def per_day_salt (l : List RawRecord) : ℚ := total_salt l / (day_count l : ℚ)

def per_meal_energy (l : List RawRecord) : ℚ := total_energy l / (meal_count l : ℚ)

def per_meal_protein (l : List RawRecord) : ℚ := total_protein l / (meal_count l : ℚ)

/-- One bucket of the daily series (a per-date bucket dict of the five nutrients). -/
structure DayTotals where
  energy : ℚ
  protein : ℚ
  salt : ℚ
  potassium : ℚ
  phosphorus : ℚ
deriving DecidableEq, Repr

def DayTotals.zero : DayTotals := ⟨0, 0, 0, 0, 0⟩

def DayTotals.add (a b : DayTotals) : DayTotals :=
  ⟨a.energy + b.energy, a.protein + b.protein, a.salt + b.salt,
   a.potassium + b.potassium, a.phosphorus + b.phosphorus⟩

/-- The normalized contribution of one record to its date bucket
(app.py 765-769). -/
def contribOf (r : RawRecord) : DayTotals :=
  ⟨parse_nutrition_value (getNutrient r.energy),
   parse_nutrition_value (getNutrient r.protein),
   parse_nutrition_value (getNutrient r.salt),
   parse_nutrition_value (getNutrient r.potassium),
   parse_nutrition_value (getNutrient r.phosphorus)⟩

/-- One step of the dict accumulation: a fresh key starts from the zero
bucket and is appended (dict insertion order); an existing key has the
contribution added into its bucket. -/
def addBucket : List (String × DayTotals) → String → DayTotals → List (String × DayTotals)
  | [], k, c => [(k, DayTotals.zero.add c)]
  | (k', t) :: rest, k, c =>
    if k' = k then (k', t.add c) :: rest
    else (k', t) :: addBucket rest k c

/-- The date key of a record in the daily series: `record.get("日付", "")`. -/
def dateKey (r : RawRecord) : String := r.date.getD ""

/-- Model of daily_data (app.py 760-769): the insertion-ordered per-date dict. -/
def daily_data (l : List RawRecord) : List (String × DayTotals) :=
  l.foldl (fun m r => addBucket m (dateKey r) (contribOf r)) []

def bucketKeyLE (a b : String × DayTotals) : Prop := a.1 ≤ b.1

instance : DecidableRel bucketKeyLE := fun a b => by
  unfold bucketKeyLE; infer_instance

instance : IsTotal (String × DayTotals) bucketKeyLE :=
  ⟨fun a b => le_total a.1 b.1⟩

instance : IsTrans (String × DayTotals) bucketKeyLE :=
  ⟨fun _ _ _ h1 h2 => le_trans h1 h2⟩

/-- Model of sorted(daily_data.items()) (app.py 780): the rows in ascending
key order (keys are pairwise distinct, so any comparison sort agrees). -/
def dailySeries (l : List RawRecord) : List (String × DayTotals) :=
  (daily_data l).insertionSort bucketKeyLE

/-- The total bucket of all meals on one date — what the claim calls
"the sum of the normalized values of all meals on that date". -/
def dateSum (l : List RawRecord) (k : String) : DayTotals :=
  ((l.filter (fun r => dateKey r = k)).map contribOf).foldl DayTotals.add DayTotals.zero

/-- First-match association lookup (how a Python dict read behaves on
the association-list model; the keys of `daily_data` are pairwise
distinct, so the first match is the only one). -/
def lookupB : List (String × DayTotals) → String → Option DayTotals
  | [], _ => none
  | (k', t) :: rest, k => if k' = k then some t else lookupB rest k

/-! ## Theorems -/

theorem waveDash_code : waveDash.toNat = 0x301C := by decide

theorem fullTilde_code : fullTilde.toNat = 0xFF5E := by decide

/-- When the stripped string contains a range separator and its sides
parse, `parse_nutrition_value` returns the arithmetic mean of the sides.
This is the range branch of app.py lines 293-298 made explicit. -/
theorem pv_range_eq (s : String) (sep : Char) (nums : List ℚ)
    (h1 : findSep (stripCommaSpace s.data) = some sep)
    (h2 : parseSides (splitOnChar sep (stripCommaSpace s.data)) = some nums)
    (h3 : nums ≠ []) :
    parse_nutrition_value (.str s) = nums.sum / (nums.length : ℚ) := by
  simp only [parse_nutrition_value, parseNutritionCore, h1, rangeMean, h2, if_neg h3,
    Option.getD_some]

example : parse_nutrition_value (.str "1500") = 1500 := by decide
example : parse_nutrition_value (.str "1200〜1500") = 1350 := by
  rw [pv_range_eq "1200〜1500" waveDash [1200, 1500] (by decide) (by decide) (by decide)]
  norm_num
example : parse_nutrition_value (.str "不明") = 0 := by decide
example : parse_nutrition_value (.str "") = 0 := by decide
example : parse_nutrition_value (.str "-5") = 5 := by
  rw [pv_range_eq "-5" '-' [5] (by decide) (by decide) (by decide)]
  norm_num
example : parse_nutrition_value (.str "〜-5") = -5 := by
  rw [pv_range_eq "〜-5" waveDash [-5] (by decide) (by decide) (by decide)]
  norm_num
example : parse_nutrition_value (.str "1,200") = 1200 := by decide
example : classify_meal_type "07:30:00" = "🌅 朝食" := by decide
example : classify_meal_type "12:00:00" = "☀️ 昼食" := by decide
example : classify_meal_type "18:45:00" = "🌙 夕食" := by decide
example : classify_meal_type "02:00:00" = "🌃 夜食" := by decide
example : classify_meal_type "bad" = "❓ 不明" := by decide

example :
    parse_nutrition_from_response "## 料理名: 焼き鮭\n- エネルギー: 350 kcal\n- たんぱく質: 25 g" =
      ⟨"焼き鮭", "350", "25", "不明", "不明", "不明"⟩ := by decide
example : parse_nutrition_from_response "" = ⟨"不明", "不明", "不明", "不明", "不明", "不明"⟩ := by decide
example : (parse_nutrition_from_response "カリウム: 800〜1000 mg").potassium = "800" := by decide
example : (parse_nutrition_from_response "カリウム: 800～1000 mg").potassium = "800〜1000" := by decide
example : (parse_nutrition_from_response "カリウム: 800-1000 mg").potassium = "800-1000" := by decide

example : parseDatePy "2024-06-01" = some ⟨2024, 6, 1⟩ := by decide
example : parseDatePy "2024-6-1" = some ⟨2024, 6, 1⟩ := by decide
example : parseDatePy "2023-02-29" = none := by decide
example : parseDatePy "2024-02-29" = some ⟨2024, 2, 29⟩ := by decide
example : parseDatePy "" = none := by decide
example : parseDatePy "2024/06/01" = none := by decide
example : parseDatePy "2024-06-01x" = none := by decide

/-! ### Helper lemmas on the value normalizer -/

theorem splitOnChar_ne_nil (sep : Char) (cs : List Char) : splitOnChar sep cs ≠ [] := by
  induction cs with
  | nil => simp [splitOnChar]
  | cons c rest ih =>
    simp only [splitOnChar]
    split
    · simp
    · cases h : splitOnChar sep rest with
      | nil => simp
      | cons h t => simp [h]

theorem sep_not_mem_of_mem_splitOnChar (sep : Char) (cs p : List Char)
    (hp : p ∈ splitOnChar sep cs) : sep ∉ p := by
  induction cs generalizing p with
  | nil =>
    simp only [splitOnChar, List.mem_singleton] at hp
    subst hp; simp
  | cons c rest ih =>
    simp only [splitOnChar] at hp
    by_cases hc : c = sep
    · rw [if_pos hc] at hp
      rcases List.mem_cons.mp hp with h | h
      · subst h; simp
      · exact ih p h
    · rw [if_neg hc] at hp
      cases hsp : splitOnChar sep rest with
      | nil => exact absurd hsp (splitOnChar_ne_nil sep rest)
      | cons h t =>
        rw [hsp] at hp
        rcases List.mem_cons.mp hp with he | he
        · subst he
          intro hmem
          rcases List.mem_cons.mp hmem with h1 | h1
          · exact hc h1.symm
          · exact ih h (by rw [hsp]; exact List.mem_cons_self h t) h1
        · exact ih p (by rw [hsp]; exact List.mem_cons.mpr (Or.inr he))

theorem parseUnsignedFloat_nonneg (cs : List Char) (q : ℚ)
    (h : parseUnsignedFloat cs = some q) : 0 ≤ q := by
  unfold parseUnsignedFloat at h
  split at h
  · split at h
    · have := Option.some_injective _ h
      subst this
      positivity
    · exact absurd h (by simp)
  · split at h
    · have := Option.some_injective _ h
      subst this
      positivity
    · exact absurd h (by simp)
  · exact absurd h (by simp)

theorem parseFloatPy_nonneg (cs : List Char) (q : ℚ)
    (hneg : '-' ∉ cs) (h : parseFloatPy cs = some q) : 0 ≤ q := by
  cases cs with
  | nil =>
    simp only [parseFloatPy] at h
    exact parseUnsignedFloat_nonneg _ _ h
  | cons c rest =>
    have hc : ¬ c = '-' := fun he => hneg (he ▸ List.mem_cons_self c rest)
    simp only [parseFloatPy, if_neg hc] at h
    split at h
    · exact parseUnsignedFloat_nonneg _ _ h
    · exact parseUnsignedFloat_nonneg _ _ h

theorem parseSides_nonneg (parts : List (List Char)) (nums : List ℚ)
    (hparts : ∀ p ∈ parts, '-' ∉ p)
    (h : parseSides parts = some nums) : ∀ x ∈ nums, 0 ≤ x := by
  induction parts generalizing nums with
  | nil =>
    simp only [parseSides] at h
    have := Option.some_injective _ h
    subst this; simp
  | cons p ps ih =>
    simp only [parseSides] at h
    split at h
    · exact ih nums (fun p hp => hparts p (List.mem_cons.mpr (Or.inr hp))) h
    · match hf : parseFloatPy p, hs : parseSides ps with
      | some v, some vs =>
        rw [hf, hs] at h
        have := Option.some_injective _ h
        subst this
        intro x hx
        rcases List.mem_cons.mp hx with he | he
        · subst he
          exact parseFloatPy_nonneg p x (hparts p (List.mem_cons_self p ps)) hf
        · exact ih vs (fun p hp => hparts p (List.mem_cons.mpr (Or.inr hp))) hs x he
      | some v, none => rw [hf, hs] at h; exact absurd h (by simp)
      | none, some vs => rw [hf, hs] at h; exact absurd h (by simp)
      | none, none => rw [hf, hs] at h; exact absurd h (by simp)

theorem findSep_mem (cs : List Char) (sep : Char) (h : findSep cs = some sep) :
    sep ∈ rangeSeps ∧ cs.contains sep = true :=
  ⟨List.mem_of_find?_eq_some h, List.find?_some h⟩

theorem findSep_none (cs : List Char) (h : findSep cs = none) :
    ∀ sep ∈ rangeSeps, cs.contains sep = false := by
  intro sep hs
  have := List.find?_eq_none.mp h sep hs
  simpa using this

/-! ### Claims about the value normalizer and the classifier -/

/-- C1: numeric input is returned unchanged as a float; a string is
stripped of thousands separators and spaces; a string containing a range
separator is split and the arithmetic mean of the successfully parsed
sides (empty sides ignored) is returned, so normalize("1500") = 1500.0
and normalize("1200〜1500") = 1350.0; any input whose parsing fails
normalizes to 0.0 rather than raising, so normalize("不明") = 0.0 and
normalize("") = 0.0. -/
theorem C1_value_normalizer_contract :
    (∀ q : ℚ, parse_nutrition_value (.num q) = q)
    ∧ parse_nutrition_value (.str "1500") = 1500
    ∧ parse_nutrition_value (.str "1200〜1500") = 1350
    ∧ parse_nutrition_value (.str "不明") = 0
    ∧ parse_nutrition_value (.str "") = 0
    ∧ (∀ v : RawValue, parseNutritionCore v = none → parse_nutrition_value v = 0)
    ∧ (∀ (s : String) (sep : Char) (nums : List ℚ),
        findSep (stripCommaSpace s.data) = some sep →
        parseSides (splitOnChar sep (stripCommaSpace s.data)) = some nums →
        nums ≠ [] →
        parse_nutrition_value (.str s) = nums.sum / (nums.length : ℚ)) := by
  refine ⟨fun q => rfl, by decide, ?_, by decide, by decide, ?_, pv_range_eq⟩
  · rw [pv_range_eq "1200〜1500" waveDash [1200, 1500] (by decide) (by decide) (by decide)]
    norm_num
  · intro v h
    simp [parse_nutrition_value, h]

theorem C1_value_normalizer_contract_witness :
    parse_nutrition_value (.str "900〜1100") = ([(900 : ℚ), 1100].sum / (([(900 : ℚ), 1100].length : ℚ)))
    ∧ parse_nutrition_value (.str "junk") = 0 :=
  ⟨C1_value_normalizer_contract.2.2.2.2.2.2 "900〜1100" waveDash [900, 1100]
      (by decide) (by decide) (by decide),
   C1_value_normalizer_contract.2.2.2.2.2.1 (.str "junk") (by decide)⟩

/-- C10 as stated is false: a string input CAN normalize to a negative
value.  "〜-5" splits on the wave dash (checked before the hyphen), its
only non-empty side is "-5", and the mean is -5.0 < 0. -/
theorem C10_counterexample : parse_nutrition_value (.str "〜-5") < 0 := by
  rw [pv_range_eq "〜-5" waveDash [-5] (by decide) (by decide) (by decide)]
  norm_num

/-- C10 amended: any hyphen is treated as a range separator before a
plain float parse is attempted (a plain parse happens only when the
stripped string has no hyphen), so normalize("-5") = 5.0; and for a
string containing none of the three tilde glyphs the result is never
negative.  (With a tilde glyph present a hyphen survives inside a side
and a negative can result, as the counterexample shows.) -/
theorem C10_hyphen_amended :
    parse_nutrition_value (.str "-5") = 5
    ∧ (∀ s : String, findSep (stripCommaSpace s.data) = none →
        '-' ∉ stripCommaSpace s.data)
    ∧ (∀ s : String, waveDash ∉ s.data → fullTilde ∉ s.data → '~' ∉ s.data →
        0 ≤ parse_nutrition_value (.str s)) := by
  refine ⟨?_, ?_, ?_⟩
  · rw [pv_range_eq "-5" '-' [5] (by decide) (by decide) (by decide)]
    norm_num
  · intro s h hmem
    have h2 := findSep_none _ h '-' (by decide)
    have h3 : '-' ∉ stripCommaSpace s.data := by simpa using h2
    exact h3 hmem
  · intro s h1 h2 h3
    have hsub : ∀ c, c ∈ stripCommaSpace s.data → c ∈ s.data :=
      fun c hc => (List.mem_filter.mp hc).1
    cases hf : findSep (stripCommaSpace s.data) with
    | none =>
      have hneg : '-' ∉ stripCommaSpace s.data := by
        have h2 := findSep_none _ hf '-' (by decide)
        simpa using h2
      simp only [parse_nutrition_value, parseNutritionCore, hf]
      cases hp : parseFloatPy (stripCommaSpace s.data) with
      | none => simp
      | some q => simpa using parseFloatPy_nonneg _ q hneg hp
    | some sep =>
      have hsep : sep = '-' := by
        rcases findSep_mem _ sep hf with ⟨hin, hcont⟩
        have hsmem : sep ∈ s.data := by
          refine hsub sep ?_
          simpa using hcont
        simp only [rangeSeps, List.mem_cons, List.mem_singleton] at hin
        rcases hin with h | h | h | h
        · exact absurd (h ▸ hsmem) h1
        · exact absurd (h ▸ hsmem) h2
        · exact absurd (h ▸ hsmem) h3
        · simpa using h
      subst hsep
      simp only [parse_nutrition_value, parseNutritionCore, hf, rangeMean]
      cases hps : parseSides (splitOnChar '-' (stripCommaSpace s.data)) with
      | none => simp
      | some nums =>
        by_cases hn : nums = []
        · simp [hn]
        · simp only [hn, if_neg hn, Option.getD_some]
          have hx : ∀ x ∈ nums, 0 ≤ x :=
            parseSides_nonneg _ _
              (fun p hp => sep_not_mem_of_mem_splitOnChar '-' _ p hp) hps
          exact div_nonneg (List.sum_nonneg hx) (by positivity)

theorem C10_hyphen_amended_witness : (0 : ℚ) ≤ parse_nutrition_value (.str "-5") :=
  C10_hyphen_amended.2.2 "-5" (by decide) (by decide) (by decide)

/-- C9: the classifier uses only the hour component and maps [5,10) to
breakfast, [10,15) to lunch, [15,22) to dinner, any other parseable hour
to late-night, and any input without an extractable hour to unknown;
it never raises. -/
theorem C9_meal_classifier :
    classify_meal_type "07:30:00" = "🌅 朝食"
    ∧ classify_meal_type "12:00:00" = "☀️ 昼食"
    ∧ classify_meal_type "18:45:00" = "🌙 夕食"
    ∧ classify_meal_type "02:00:00" = "🌃 夜食"
    ∧ classify_meal_type "bad" = "❓ 不明"
    ∧ (∀ (s : String) (h : Int), hourOf s = some h → classify_meal_type s =
        if 5 ≤ h ∧ h < 10 then "🌅 朝食"
        else if 10 ≤ h ∧ h < 15 then "☀️ 昼食"
        else if 15 ≤ h ∧ h < 22 then "🌙 夕食"
        else "🌃 夜食")
    ∧ (∀ s : String, hourOf s = none → classify_meal_type s = "❓ 不明") := by
  refine ⟨by decide, by decide, by decide, by decide, by decide, ?_, ?_⟩
  · intro s h hh
    simp [classify_meal_type, hh]
  · intro s hh
    simp [classify_meal_type, hh]

theorem C9_meal_classifier_witness :
    classify_meal_type "23:15:00" = "🌃 夜食" ∧ classify_meal_type "" = "❓ 不明" :=
  ⟨(C9_meal_classifier.2.2.2.2.2.1 "23:15:00" 23 (by decide)).trans (by decide),
   C9_meal_classifier.2.2.2.2.2.2 "" (by decide)⟩

/-- C2: evaluation of the extractor at the claim's raw text.  The
capture class `[\d,\.～~\-]` does NOT contain the wave dash U+301C used
in the text, so the captured potassium field is "800" (normalizing to
800.0), not the full range "800〜1000" (which would normalize to 900.0).
With the FULLWIDTH TILDE U+FF5E — which IS in the class — the full range
is captured and canonicalized to the wave dash, and normalizes to
900.0, showing the wave-dash case is the one glyph the class forgot. -/
theorem C2_wave_dash_capture :
    (parse_nutrition_from_response "カリウム: 800〜1000 mg").potassium = "800"
    ∧ parse_nutrition_value (.str "800") = 800
    ∧ (parse_nutrition_from_response "カリウム: 800～1000 mg").potassium = "800〜1000"
    ∧ parse_nutrition_value (.str "800〜1000") = 900 := by
  refine ⟨by decide, by decide, by decide, ?_⟩
  rw [pv_range_eq "800〜1000" waveDash [800, 1000] (by decide) (by decide) (by decide)]
  norm_num

/-! ### Claims about the extractor -/

theorem matchNutrient_eq_none (labels : List (List Char)) (text : List Char)
    (h : ∀ l ∈ labels, containsSeq text l = false) :
    matchNutrient labels text = none := by
  induction text with
  | nil => simp [matchNutrient]
  | cons c rest ih =>
    have hfind : labels.find? (fun l => l.isPrefixOf (c :: rest)) = none := by
      refine List.find?_eq_none.mpr (fun l hl => ?_)
      have hcl := h l hl
      simp only [containsSeq, Bool.or_eq_false_iff] at hcl
      simp [hcl.1]
    simp only [matchNutrient, hfind]
    exact ih (fun l hl => by
      have hcl := h l hl
      simp only [containsSeq, Bool.or_eq_false_iff] at hcl
      exact hcl.2)

theorem matchMealName_eq_none (text : List Char)
    (h : containsSeq text "料理名".data = false) :
    matchMealName text = none := by
  induction text with
  | nil => simp [matchMealName]
  | cons c rest ih =>
    simp only [containsSeq, Bool.or_eq_false_iff] at h
    have hp : ∀ colon : Char,
        ("料理名".data ++ [colon]).isPrefixOf (c :: rest) = false := by
      intro colon
      by_contra hx
      have hx' : ("料理名".data ++ [colon]).isPrefixOf (c :: rest) = true := by
        simpa using hx
      have hpre : "料理名".data <+: (c :: rest) :=
        (List.prefix_append _ _).trans (List.isPrefixOf_iff_prefix.mp hx')
      have : "料理名".data.isPrefixOf (c :: rest) = true :=
        List.isPrefixOf_iff_prefix.mpr hpre
      rw [h.1] at this
      exact Bool.false_ne_true this
    simp only [matchMealName, hp, Bool.false_eq_true, if_false]
    exact ih h.2

/-- C3: a response text containing none of the recognizable labels
extracts to the dish name and all five nutrient fields being the "不明"
sentinel (and extraction is total); the empty string does too; and when
a label occurs more than once, the first match wins. -/
theorem C3_no_labels_unknown :
    (∀ text : String,
      containsSeq text.data "料理名".data = false →
      containsSeq text.data "エネルギー".data = false →
      containsSeq text.data "タンパク質".data = false →
      containsSeq text.data "たんぱく質".data = false →
      containsSeq text.data "塩分".data = false →
      containsSeq text.data "カリウム".data = false →
      containsSeq text.data "リン".data = false →
      parse_nutrition_from_response text = ⟨"不明", "不明", "不明", "不明", "不明", "不明"⟩)
    ∧ parse_nutrition_from_response "" = ⟨"不明", "不明", "不明", "不明", "不明", "不明"⟩
    ∧ (parse_nutrition_from_response "カリウム: 800 mg\nカリウム: 900 mg").potassium = "800" := by
  refine ⟨?_, by decide, by decide⟩
  intro text h0 h1 h2 h3 h4 h5 h6
  have e : ∀ labels : List (List Char),
      (∀ l ∈ labels, containsSeq text.data l = false) →
      extractField labels text.data = "不明" := by
    intro labels hl
    simp [extractField, matchNutrient_eq_none labels text.data hl]
  have hE : extractField energyLabels text.data = "不明" := by
    refine e _ (fun l hl => ?_)
    simp only [energyLabels, List.mem_singleton] at hl
    subst hl; exact h1
  have hP : extractField proteinLabels text.data = "不明" := by
    refine e _ (fun l hl => ?_)
    simp only [proteinLabels, List.mem_cons, List.not_mem_nil, or_false] at hl
    rcases hl with hl | hl <;> (subst hl; first | exact h2 | exact h3)
  have hS : extractField saltLabels text.data = "不明" := by
    refine e _ (fun l hl => ?_)
    simp only [saltLabels, List.mem_singleton] at hl
    subst hl; exact h4
  have hK : extractField potassiumLabels text.data = "不明" := by
    refine e _ (fun l hl => ?_)
    simp only [potassiumLabels, List.mem_singleton] at hl
    subst hl; exact h5
  have hPh : extractField phosphorusLabels text.data = "不明" := by
    refine e _ (fun l hl => ?_)
    simp only [phosphorusLabels, List.mem_singleton] at hl
    subst hl; exact h6
  simp only [parse_nutrition_from_response, matchMealName_eq_none text.data h0,
    hE, hP, hS, hK, hPh]

theorem C3_no_labels_unknown_witness :
    parse_nutrition_from_response "こんにちは、今日は良い天気ですね。" =
      ⟨"不明", "不明", "不明", "不明", "不明", "不明"⟩ :=
  C3_no_labels_unknown.1 "こんにちは、今日は良い天気ですね。"
    (by decide) (by decide) (by decide) (by decide) (by decide) (by decide) (by decide)

/-! ### Claims about the record filter -/

/-- C4 as stated is false: a record whose date string is EMPTY (absent
key or empty cell, `record.get("日付","")` = "") passes the filter even
though "" does not parse as YYYY-MM-DD — the date guard only runs under
the guard of app.py line 700 (app.py line 700), so empty dates fall through. -/
theorem C4_counterexample :
    passesFilter "全員" ⟨2024, 1, 1⟩ ⟨2024, 12, 31⟩
        ⟨some "", none, none, none, none, none, none, none, none⟩ = true
    ∧ parseDatePy "" = none := by decide

/-- C4 amended: a record passes iff (its date string is empty, OR it
parses as YYYY-MM-DD to a date between the bounds inclusive), AND the
user selector is "全員" or equals the record's display name exactly.
Non-empty unparsable dates are silently excluded, never an error. -/
theorem C4_filter_amended :
    ∀ (su : String) (sd ed : PyDate) (r : RawRecord),
      passesFilter su sd ed r = true ↔
        ((r.date.getD "" = "" ∨
          ∃ d, parseDatePy (r.date.getD "") = some d ∧
            dateLE sd d = true ∧ dateLE d ed = true)
         ∧ (su = "全員" ∨ r.name = some su)) := by
  intro su sd ed r
  by_cases hs : r.date.getD "" = ""
  · simp [passesFilter, hs]
  · cases hd : parseDatePy (r.date.getD "") with
    | none => simp [passesFilter, hs, hd]
    | some d => simp [passesFilter, hs, hd]

theorem filterLoop_fst_eq (su : String) (sd ed : PyDate) (l : List RawRecord) :
    (filterLoop su sd ed l).1 =
      l.map (fun r => if passesFilter su sd ed r then classifyRecord r else r) := by
  induction l with
  | nil => rfl
  | cons r rest ih =>
    simp only [filterLoop, List.map_cons]
    split <;> simp [ih]

/-- C5 as stated is false: running the filter mutates the input
sequence — a record passing the date and user guards gains the meal-slot
column `食事区分` in place. -/
theorem C5_counterexample :
    (filterLoop "全員" ⟨2024, 1, 1⟩ ⟨2024, 12, 31⟩
        [⟨some "2024-06-01", some "08:00:00", none, none, none, none, none, none, none⟩]).1 ≠
      [⟨some "2024-06-01", some "08:00:00", none, none, none, none, none, none, none⟩] := by
  decide

/-- C5 amended: the filter changes no field other than the meal-slot
column — erasing that column, the input sequence is unchanged (same
records, same order, all other fields intact); records failing the
date/user guards are not touched at all; and the whole mutation is
exactly "passing records get the meal-slot column set". -/
theorem C5_mutation_amended :
    (∀ (su : String) (sd ed : PyDate) (l : List RawRecord),
      ((filterLoop su sd ed l).1).map eraseMealType = l.map eraseMealType)
    ∧ (∀ (su : String) (sd ed : PyDate) (l : List RawRecord),
        (∀ r ∈ l, passesFilter su sd ed r = false) → (filterLoop su sd ed l).1 = l)
    ∧ (∀ (su : String) (sd ed : PyDate) (l : List RawRecord),
        (filterLoop su sd ed l).1 =
          l.map (fun r => if passesFilter su sd ed r then classifyRecord r else r)) := by
  refine ⟨?_, ?_, filterLoop_fst_eq⟩
  · intro su sd ed l
    rw [filterLoop_fst_eq, List.map_map]
    have hfun : (eraseMealType ∘ fun r =>
        if passesFilter su sd ed r then classifyRecord r else r) = eraseMealType :=
      funext (fun r => by by_cases h : passesFilter su sd ed r <;> simp [h, eraseMealType, classifyRecord])
    rw [hfun]
  · intro su sd ed l h
    rw [filterLoop_fst_eq]
    have : ∀ r ∈ l, (if passesFilter su sd ed r then classifyRecord r else r) = r :=
      fun r hr => by rw [h r hr]; simp
    rw [List.map_congr_left this]
    exact List.map_id l

theorem C5_mutation_amended_witness :
    (filterLoop "全員" ⟨2024, 1, 1⟩ ⟨2024, 12, 31⟩
        [⟨some "nope", none, none, none, none, none, none, none, none⟩]).1 =
      [⟨some "nope", none, none, none, none, none, none, none, none⟩] :=
  C5_mutation_amended.2.1 "全員" ⟨2024, 1, 1⟩ ⟨2024, 12, 31⟩ _ (by decide)

/-! ### Claims about the period aggregation -/

theorem foldl_add_eq_sum (xs : List ℚ) : xs.foldl (· + ·) 0 = xs.sum := by
  induction xs using List.reverseRecOn <;> simp [List.sum_append, *]

/-- C6: the reported meal count is the number of records, and each
nutrient total is the sum over the records of normalize applied to that
record's raw field, a missing field contributing 0 (its numeric default
0 normalizes to 0.0). -/
theorem C6_totals :
    ∀ l : List RawRecord,
      meal_count l = l.length
      ∧ total_energy l = (l.map (fun r => parse_nutrition_value (getNutrient r.energy))).sum
      ∧ total_protein l = (l.map (fun r => parse_nutrition_value (getNutrient r.protein))).sum
      ∧ total_salt l = (l.map (fun r => parse_nutrition_value (getNutrient r.salt))).sum
      ∧ total_potassium l = (l.map (fun r => parse_nutrition_value (getNutrient r.potassium))).sum
      ∧ total_phosphorus l = (l.map (fun r => parse_nutrition_value (getNutrient r.phosphorus))).sum
      ∧ parse_nutrition_value (getNutrient none) = 0 := by
  intro l
  refine ⟨rfl, ?_, ?_, ?_, ?_, ?_, rfl⟩ <;>
    simp [total_energy, total_protein, total_salt, total_potassium, total_phosphorus,
      totalNutr, foldl_add_eq_sum]

/-- C7: per-day averages divide the totals by the distinct-day count
(floored at 1 on an empty or dateless set), not by the meal count; the
divisor is the number of distinct non-empty dates present; two meals on
one day leave the per-day denominator at 1. -/
theorem C7_day_count :
    (∀ l : List RawRecord,
      per_day_energy l = total_energy l / (day_count l : ℚ)
      ∧ per_day_protein l = total_protein l / (day_count l : ℚ)
      ∧ per_day_salt l = total_salt l / (day_count l : ℚ)
      ∧ day_count l = max 1 (unique_dates l).length
      ∧ 1 ≤ day_count l
      ∧ (∀ k : String, k ∈ unique_dates l ↔ ((∃ r ∈ l, r.date = some k) ∧ k ≠ "")))
    ∧ day_count ([] : List RawRecord) = 1
    ∧ day_count [⟨some "2024-06-01", some "08:00:00", none, some "500", some "20", none, none, none, none⟩,
        ⟨some "2024-06-01", some "19:00:00", none, some "700", none, none, none, none, none⟩] = 1
    ∧ meal_count [⟨some "2024-06-01", some "08:00:00", none, some "500", some "20", none, none, none, none⟩,
        ⟨some "2024-06-01", some "19:00:00", none, some "700", none, none, none, none, none⟩] = 2
    ∧ per_day_energy [⟨some "2024-06-01", some "08:00:00", none, some "500", some "20", none, none, none, none⟩,
        ⟨some "2024-06-01", some "19:00:00", none, some "700", none, none, none, none, none⟩] = 1200 := by
  refine ⟨?_, by decide, by decide, by decide, ?_⟩
  · intro l
    refine ⟨rfl, rfl, rfl, ?_, ?_, ?_⟩
    · by_cases h : unique_dates l = []
      · simp [day_count, h]
      · have hpos : 0 < (unique_dates l).length := List.length_pos.mpr h
        simp [day_count, h, Nat.max_eq_right hpos]
    · by_cases h : unique_dates l = []
      · simp [day_count, h]
      · have hpos : 0 < (unique_dates l).length := List.length_pos.mpr h
        simpa [day_count, h] using hpos
    · intro k
      simp only [unique_dates, List.mem_dedup, List.mem_filter, List.mem_filterMap,
        decide_eq_true_eq, ne_eq]
  · have h500 : parse_nutrition_value (getNutrient (some "500")) = 500 := by decide
    have h700 : parse_nutrition_value (getNutrient (some "700")) = 700 := by decide
    have hd : day_count [⟨some "2024-06-01", some "08:00:00", none, some "500", some "20", none, none, none, none⟩,
        ⟨some "2024-06-01", some "19:00:00", none, some "700", none, none, none, none, none⟩] = 1 := by decide
    simp only [per_day_energy, total_energy, totalNutr, hd, List.map_cons, List.map_nil,
      List.foldl_cons, List.foldl_nil]
    rw [h500, h700]
    norm_num

/-! ### Claims about the daily series -/

theorem addBucket_keys (m : List (String × DayTotals)) (k : String) (c : DayTotals) :
    (addBucket m k c).map Prod.fst =
      if k ∈ m.map Prod.fst then m.map Prod.fst else m.map Prod.fst ++ [k] := by
  induction m with
  | nil => simp [addBucket]
  | cons p rest ih =>
    obtain ⟨k', t⟩ := p
    by_cases h : k' = k
    · subst h
      simp [addBucket]
    · have hne : ¬ k = k' := fun he => h he.symm
      simp only [addBucket, if_neg h, List.map_cons, ih, List.mem_cons, hne, false_or]
      by_cases hm : k ∈ rest.map Prod.fst
      · simp [hm]
      · simp [hm]

theorem mem_addBucket_keys (m : List (String × DayTotals)) (k c k'') :
    k'' ∈ (addBucket m k c).map Prod.fst ↔ k'' ∈ m.map Prod.fst ∨ k'' = k := by
  rw [addBucket_keys]
  by_cases h : k ∈ m.map Prod.fst
  · rw [if_pos h]
    constructor
    · exact Or.inl
    · rintro (hh | hh)
      · exact hh
      · exact hh ▸ h
  · rw [if_neg h]
    simp [List.mem_append]

theorem addBucket_keys_nodup (m : List (String × DayTotals)) (k c)
    (h : (m.map Prod.fst).Nodup) : ((addBucket m k c).map Prod.fst).Nodup := by
  rw [addBucket_keys]
  by_cases hm : k ∈ m.map Prod.fst
  · rw [if_pos hm]; exact h
  · rw [if_neg hm]; simp [List.nodup_append, h, hm]

theorem daily_data_aux_keys_nodup (l : List RawRecord) :
    ∀ m : List (String × DayTotals), (m.map Prod.fst).Nodup →
      (((l.foldl (fun m r => addBucket m (dateKey r) (contribOf r)) m)).map Prod.fst).Nodup := by
  induction l with
  | nil => intro m h; simpa using h
  | cons r rest ih =>
    intro m h
    simp only [List.foldl_cons]
    exact ih _ (addBucket_keys_nodup m _ _ h)

theorem daily_data_keys_nodup (l : List RawRecord) :
    ((daily_data l).map Prod.fst).Nodup :=
  daily_data_aux_keys_nodup l [] (by simp)

theorem mem_daily_data_aux_keys (l : List RawRecord) :
    ∀ (m : List (String × DayTotals)) (k : String),
      (k ∈ ((l.foldl (fun m r => addBucket m (dateKey r) (contribOf r)) m)).map Prod.fst ↔
        k ∈ m.map Prod.fst ∨ k ∈ l.map dateKey) := by
  induction l with
  | nil => intro m k; simp
  | cons r rest ih =>
    intro m k
    simp only [List.foldl_cons, List.map_cons, List.mem_cons]
    rw [ih, mem_addBucket_keys]
    tauto

theorem mem_daily_data_keys (l : List RawRecord) (k : String) :
    k ∈ (daily_data l).map Prod.fst ↔ k ∈ l.map dateKey := by
  rw [daily_data, mem_daily_data_aux_keys]
  simp

theorem lookupB_addBucket (m : List (String × DayTotals)) (k c k'') :
    lookupB (addBucket m k c) k'' =
      if k'' = k then some (((lookupB m k).getD DayTotals.zero).add c)
      else lookupB m k'' := by
  induction m with
  | nil =>
    by_cases h : k'' = k
    · subst h; simp [addBucket, lookupB]
    · have hne : ¬ k = k'' := fun he => h he.symm
      simp [addBucket, lookupB, h, hne]
  | cons p rest ih =>
    obtain ⟨k', t⟩ := p
    by_cases h1 : k' = k
    · subst h1
      by_cases h2 : k'' = k'
      · subst h2; simp [addBucket, lookupB]
      · have hne : ¬ k' = k'' := fun he => h2 he.symm
        simp [addBucket, lookupB, h2, hne]
    · by_cases h2 : k'' = k
      · subst h2
        have hne : ¬ k' = k'' := h1
        simp [addBucket, lookupB, h1, hne, ih]
      · by_cases h3 : k' = k''
        · subst h3
          simp [addBucket, lookupB, h1, h2, ih]
        · simp [addBucket, lookupB, h1, h2, h3, ih]

theorem lookupB_daily_aux (l : List RawRecord) :
    ∀ (m : List (String × DayTotals)) (k : String),
      lookupB (l.foldl (fun m r => addBucket m (dateKey r) (contribOf r)) m) k =
        match lookupB m k with
        | some t =>
          some (((l.filter (fun r => dateKey r = k)).map contribOf).foldl DayTotals.add t)
        | none =>
          if (l.filter (fun r => dateKey r = k)) = [] then none
          else some (((l.filter (fun r => dateKey r = k)).map contribOf).foldl DayTotals.add DayTotals.zero) := by
  induction l with
  | nil =>
    intro m k
    cases hm : lookupB m k <;> simp [hm]
  | cons r rest ih =>
    intro m k
    simp only [List.foldl_cons]
    rw [ih]
    by_cases hk : dateKey r = k
    · have hcond : (decide (dateKey r = k)) = true := by simp [hk]
      rw [lookupB_addBucket, if_pos hk.symm, hk]
      cases hm : lookupB m k with
      | some t => simp [hm, List.filter_cons, hcond]
      | none => simp [hm, List.filter_cons, hcond]
    · have hcond : (decide (dateKey r = k)) = false := by simp [hk]
      rw [lookupB_addBucket]
      rw [if_neg (fun he => hk he.symm)]
      simp only [List.filter_cons, hcond]
      rfl

theorem lookupB_eq_some_of_mem (m : List (String × DayTotals)) (k : String) (v : DayTotals) :
    (m.map Prod.fst).Nodup → (k, v) ∈ m → lookupB m k = some v := by
  induction m with
  | nil => intro _ hm; exact absurd hm (List.not_mem_nil _)
  | cons p rest ih =>
    intro hnd hm
    obtain ⟨k', t⟩ := p
    simp only [List.map_cons, List.nodup_cons] at hnd
    rcases List.mem_cons.mp hm with he | he
    · injection he with h1 h2
      subst h1; subst h2
      simp [lookupB]
    · have hk : k' ≠ k := by
        intro hkk
        subst hkk
        exact hnd.1 (by simpa using List.mem_map_of_mem Prod.fst he)
      simp only [lookupB, if_neg hk]
      exact ih hnd.2 he

/-- C8: the daily series has exactly one row per distinct date value
present in the record set (no extra or zero-filled rows), each row's
bucket is the sum of the normalized values of all meals on that date,
and the rows are in strictly ascending date-string order with no
duplicate dates. -/
theorem C8_daily_series :
    ∀ l : List RawRecord,
      (dailySeries l).Pairwise (fun a b => a.1 < b.1)
      ∧ (∀ k, k ∈ (dailySeries l).map Prod.fst ↔ k ∈ l.map dateKey)
      ∧ (∀ k v, (k, v) ∈ dailySeries l → v = dateSum l k) := by
  intro l
  have hperm : List.Perm (dailySeries l) (daily_data l) :=
    List.perm_insertionSort bucketKeyLE (daily_data l)
  have hnd : ((daily_data l).map Prod.fst).Nodup := daily_data_keys_nodup l
  have hndS : ((dailySeries l).map Prod.fst).Nodup :=
    ((hperm.map Prod.fst).nodup_iff).mpr hnd
  refine ⟨?_, ?_, ?_⟩
  · have hs : List.Sorted bucketKeyLE (dailySeries l) :=
      List.sorted_insertionSort bucketKeyLE (daily_data l)
    have hne : (dailySeries l).Pairwise (fun a b => a.1 ≠ b.1) :=
      (List.pairwise_map).mp hndS
    exact (hs.and hne).imp (fun h => lt_of_le_of_ne h.1 h.2)
  · intro k
    rw [(hperm.map Prod.fst).mem_iff]
    exact mem_daily_data_keys l k
  · intro k v hm
    have hmd : (k, v) ∈ daily_data l := hperm.mem_iff.mp hm
    have hlk : lookupB (daily_data l) k = some v :=
      lookupB_eq_some_of_mem (daily_data l) k v hnd hmd
    rw [daily_data, lookupB_daily_aux l [] k] at hlk
    simp only [lookupB] at hlk
    by_cases hf : (l.filter (fun r => dateKey r = k)) = []
    · rw [if_pos hf] at hlk
      exact absurd hlk (by simp)
    · rw [if_neg hf] at hlk
      have := Option.some_injective _ hlk.symm
      exact this

theorem C8_daily_series_witness :
    DayTotals.zero.add (contribOf
        ⟨some "2024-06-01", some "08:00:00", none, none, none, none, none, none, none⟩) =
      dateSum [⟨some "2024-06-01", some "08:00:00", none, none, none, none, none, none, none⟩]
        "2024-06-01" :=
  (C8_daily_series
      [⟨some "2024-06-01", some "08:00:00", none, none, none, none, none, none, none⟩]).2.2
    "2024-06-01" _ (List.mem_singleton.mpr rfl)
